import Mathlib

/-!
Shallow embedding of the issue-sync tool (src/rest.ts, src/types = src/unnamed/part_002):
the label classifier, the pull-request filter, the workflow dispatcher and the
paginated iteration orchestrator, together with theorems settling the spec claims.

External effects are made explicit: the workflow-dispatch capability is an oracle
function from the call record to success or a failure description, and each embedded
operation returns, next to its outcome, the list of dispatch calls it made and the
log lines it emitted.  The paginated issue source is a finite list of pages, each
either a page of records or a fetch error, and the orchestrator returns its trace
of events (page requests, per-issue action invocations, inter-page sleeps).
-/

/-- A label object, as in the GitHub issues listing: `name` and `color` are both
optional on the wire (`none` models a missing or null field).  From the `Label`
type of src/unnamed/part_002. -/
structure Label where
  name : Option String
  color : Option String
deriving DecidableEq, Repr

/-- An entry of an issue `labels` array: the endpoint may return a plain string
or a label object (`typeof label !== "string"` in getProductLabels). -/
inductive IssueLabel where
  | str (s : String)
  | lbl (l : Label)
deriving DecidableEq, Repr

/-- An issue-like record of the listing endpoint, restricted to the fields the
program reads: number, html_url, labels, the optional assignees array and the
pull-request marker (`pull_request` is set exactly on pull-request records). -/
structure Issue where
  number : Nat
  html_url : String
  labels : List IssueLabel
  assignees : Option (List String)
  pull_request : Bool
deriving DecidableEq, Repr

/-- `ActionResponse` from src/unnamed/part_002 line 9: note that it admits
`total` next to the three outcomes. -/
inductive ActionResponse where
  | total
  | triggered
  | skipped
  | failed
deriving DecidableEq, Repr

/-- `ActionCounters` from src/unnamed/part_002: one counter per `ActionResponse` key. -/
structure ActionCounters where
  total : Nat
  triggered : Nat
  skipped : Nat
  failed : Nat
deriving DecidableEq, Repr

/-- `counters[result] += 1` (src/rest.ts line 149): bump the counter field named
by the response value. -/
def ActionCounters.bump (c : ActionCounters) : ActionResponse → ActionCounters
  | .total => { c with total := c.total + 1 }
  | .triggered => { c with triggered := c.triggered + 1 }
  | .skipped => { c with skipped := c.skipped + 1 }
  | .failed => { c with failed := c.failed + 1 }

/-- getProductLabels (src/rest.ts lines 25-30): keep the label-object entries
whose color is exactly the sentinel string "006B75". -/
def getProductLabels (issue : Issue) : List Label :=
  issue.labels.filterMap fun il =>
    match il with
    | .str _ => none
    | .lbl l => if l.color = some "006B75" then some l else none

/-- The predicate getProductLabels keeps, on raw label entries. -/
def isProductEntry (il : IssueLabel) : Bool :=
  match il with
  | .str _ => false
  | .lbl l => l.color = some "006B75"

/-- removePullRequests (src/rest.ts lines 37-39): drop records whose
pull-request marker is set. -/
def removePullRequests (issues : List Issue) : List Issue :=
  issues.filter fun issue => !issue.pull_request

/-- A JavaScript object as an ordered association list; a value is an optional
string (`none` models a null value, as label_color may be null). -/
abbrev JsObject := List (String × Option String)

/-- Set one key of a JavaScript object: overwrite the value in place when the key
is present, append the pair otherwise (object property-update semantics). -/
def setKey : JsObject → String → Option String → JsObject
  | [], k, v => [(k, v)]
  | p :: rest, k, v => if p.fst = k then (k, v) :: rest else p :: setKey rest k v

/-- The object spread `\x7b...a, ...b\x7d`: start from `a` and apply the entries of
`b` in order, each overwriting an existing key or appending (last write wins). -/
def spreadMerge (a b : JsObject) : JsObject :=
  b.foldl (fun m p => setKey m p.fst p.snd) a

/-- Look a key up in a JavaScript object (first matching entry). -/
def lookupKey : JsObject → String → Option (Option String)
  | [], _ => none
  | p :: rest, k => if p.fst = k then some p.snd else lookupKey rest k

/-- The `defaultInputs` object built in dispatchMondayWorkflow (src/rest.ts
lines 51-54): the issue number as a string and the fixed event-type tag. -/
def defaultInputs (issue : Issue) : JsObject :=
  [("issue_number", some (toString issue.number)),
   ("event_type", some "SyncActionChanges")]

/-- The record passed to the workflow-dispatch endpoint
(octokit.rest.actions.createWorkflowDispatch, src/rest.ts lines 57-63). -/
structure DispatchCall where
  owner : String
  repo : String
  workflow_id : String
  ref : String
  inputs : JsObject
deriving DecidableEq, Repr

/-- The external workflow-dispatch capability: succeeds, or fails with a
description (a thrown error, rendered by `String(error)`). -/
abbrev DispatchCap := DispatchCall → Except String Unit

/-- The call dispatchMondayWorkflow makes: fixed workflow id and ref, inputs the
spread of the defaults with the caller-supplied inputs. -/
def mondayCall (owner repo : String) (issue : Issue) (inputs : JsObject) : DispatchCall :=
  ⟨owner, repo, "issue-monday-sync.yml", "dev",
    spreadMerge (defaultInputs issue) inputs⟩

/-- Outcome of one embedded operation: the returned response, the dispatch calls
made, and the console lines emitted. -/
structure OpResult where
  response : ActionResponse
  calls : List DispatchCall
  log : List String
deriving DecidableEq, Repr

/-- dispatchMondayWorkflow (src/rest.ts lines 47-73): invoke the endpoint once;
on success log the issue URL and return triggered, on any thrown failure log the
URL with the error description and return failed (the error is swallowed). -/
def dispatchMondayWorkflow (cap : DispatchCap) (owner repo : String)
    (issue : Issue) (inputs : JsObject) : OpResult :=
  let call := mondayCall owner repo issue inputs
  match cap call with
  | .ok _ => ⟨.triggered, [call], ["DISPATCHED: " ++ issue.html_url]⟩
  | .error e =>
      ⟨.failed, [call], ["FAILED: " ++ issue.html_url ++ ". Error: " ++ e]⟩

/-- syncEsriProductLabels (src/rest.ts lines 80-97): skip when no product label;
fail with a warning when the first product label has a falsy name (missing or
empty); otherwise dispatch with the name, color and action "added" of that label. -/
def syncEsriProductLabels (cap : DispatchCap) (owner repo : String)
    (issue : Issue) : OpResult :=
  match getProductLabels issue with
  | [] => ⟨.skipped, [], []⟩
  | firstLabel :: _ =>
    match firstLabel.name with
    | none => ⟨.failed, [], ["FAILED: " ++ issue.html_url ++ ". No valid label found."]⟩
    | some n =>
      if n = "" then
        ⟨.failed, [], ["FAILED: " ++ issue.html_url ++ ". No valid label found."]⟩
      else
        dispatchMondayWorkflow cap owner repo issue
          [("label_name", some n), ("label_color", firstLabel.color),
           ("label_action", some "added")]

/-- syncAssignees (src/rest.ts lines 171-175): skip exactly when the assignees
array is present and empty (`issue?.assignees?.length === 0`); otherwise
dispatch with the assignee_updated flag. -/
def syncAssignees (cap : DispatchCap) (owner repo : String) (issue : Issue) : OpResult :=
  match issue.assignees with
  | some [] => ⟨.skipped, [], []⟩
  | _ => dispatchMondayWorkflow cap owner repo issue [("assignee_updated", some "true")]

/-- Observable events of one orchestrator run: a page requested and received,
one per-issue action invocation with its response, one inter-page sleep. -/
inductive Event where
  | pageRequested
  | actioned (issue : Issue) (r : ActionResponse)
  | slept (ms : Nat)
deriving DecidableEq, Repr

/-- The inner loop of iterateAllIssues (src/rest.ts lines 147-150): invoke the
action on each surviving issue in order and bump the matching counter.  The
action receives the global invocation index so that stateful callers are
covered.  Returns the next index, the counters and the actioned events. -/
def processIssues (act : Nat → Issue → ActionResponse) :
    Nat → List Issue → ActionCounters → Nat × ActionCounters × List Event
  | k, [], c => (k, c, [])
  | k, i :: rest, c =>
    let r := act k i
    let out := processIssues act (k + 1) rest (c.bump r)
    (out.fst, out.snd.fst, .actioned i r :: out.snd.snd)

/-- The page loop of iterateAllIssues (src/rest.ts lines 140-156): for each page,
filter out pull requests, add the survivor count to the total, run the action on
each survivor, then either break (onlyFirstPage) or sleep before the next page.
A fetch error of the page source propagates out and is never recovered. -/
def iterGo (act : Nat → Issue → ActionResponse) (sleepMs : Nat) (onlyFirstPage : Bool) :
    List (Except String (List Issue)) → Nat → ActionCounters →
    Except String (ActionCounters × List Event)
  | [], _, c => .ok (c, [])
  | p :: rest, k, c =>
    match p with
    | .error e => .error e
    | .ok data =>
      let issues := removePullRequests data
      let c1 := { c with total := c.total + issues.length }
      let out := processIssues act k issues c1
      if onlyFirstPage then
        .ok (out.snd.fst, Event.pageRequested :: out.snd.snd)
      else
        match iterGo act sleepMs onlyFirstPage rest out.fst out.snd.fst with
        | .error e => .error e
        | .ok (cf, evs2) =>
            .ok (cf, Event.pageRequested :: out.snd.snd ++ Event.slept sleepMs :: evs2)

/-- iterateAllIssues (src/rest.ts lines 112-164) over an explicit page source:
counters start at zero; the returned counters are the content of the final
summary, and the event list is the observable trace of the run. -/
def iterateAllIssues (pages : List (Except String (List Issue)))
    (act : Nat → Issue → ActionResponse) (sleepMs : Nat) (onlyFirstPage : Bool) :
    Except String (ActionCounters × List Event) :=
  iterGo act sleepMs onlyFirstPage pages 0 ⟨0, 0, 0, 0⟩

/-- Recognize an action-invocation event. -/
def Event.isActioned : Event → Bool
  | .actioned _ _ => true
  | _ => false

/-- Recognize a sleep event. -/
def Event.isSlept : Event → Bool
  | .slept _ => true
  | _ => false

/-- The counter invariant of the spec: the total equals the sum of the three
outcome counters. -/
def countersInv (c : ActionCounters) : Prop :=
  c.total = c.triggered + c.skipped + c.failed

instance (c : ActionCounters) : Decidable (countersInv c) := by
  unfold countersInv; infer_instance

/-! ### Helper lemmas on JavaScript-object merge -/

theorem lookupKey_setKey (m : JsObject) (k : String) (v : Option String) (k' : String) :
    lookupKey (setKey m k v) k' = if k' = k then some v else lookupKey m k' := by
  induction m with
  | nil =>
      by_cases h : k' = k
      · simp [setKey, lookupKey, h]
      · simp [setKey, lookupKey, h, Ne.symm h]
  | cons p rest ih =>
      by_cases hp : p.fst = k
      · by_cases h : k' = k
        · simp [setKey, lookupKey, hp, h]
        · have hpk' : p.fst ≠ k' := by rw [hp]; exact Ne.symm h
          simp [setKey, lookupKey, hp, h, Ne.symm h, hpk']
      · by_cases hpk' : p.fst = k'
        · have h : ¬ k' = k := fun hh => hp (by rw [hpk', hh])
          simp [setKey, lookupKey, hp, hpk', h]
        · simp [setKey, lookupKey, hp, hpk', ih]

theorem lookupKey_eq_none (m : JsObject) (k : String)
    (h : k ∉ m.map Prod.fst) : lookupKey m k = none := by
  induction m with
  | nil => rfl
  | cons p rest ih =>
      simp only [List.map_cons, List.mem_cons] at h
      push_neg at h
      simp only [lookupKey]
      rw [if_neg (fun hh => h.1 hh.symm)]
      exact ih h.2

theorem lookupKey_spreadMerge (b a : JsObject) (k : String)
    (hnd : (b.map Prod.fst).Nodup) :
    lookupKey (spreadMerge a b) k =
      match lookupKey b k with
      | some v => some v
      | none => lookupKey a k := by
  induction b generalizing a with
  | nil => rfl
  | cons p rest ih =>
      simp only [List.map_cons, List.nodup_cons] at hnd
      have step : spreadMerge a (p :: rest) = spreadMerge (setKey a p.fst p.snd) rest := rfl
      rw [step, ih _ hnd.2]
      simp only [lookupKey, lookupKey_setKey]
      by_cases hk : p.fst = k
      · have hnone : lookupKey rest k = none := by
          apply lookupKey_eq_none
          rw [← hk]; exact hnd.1
        simp [hk, hnone]
      · have hk2 : ¬ k = p.fst := fun hh => hk hh.symm
        rw [if_neg hk, if_neg hk2]

/-! ### Helper lemmas on the label classifier -/

theorem getProductLabels_map_lbl (issue : Issue) :
    (getProductLabels issue).map IssueLabel.lbl = issue.labels.filter isProductEntry := by
  unfold getProductLabels
  induction issue.labels with
  | nil => rfl
  | cons il rest ih =>
      cases il with
      | str s => simpa [List.filterMap_cons, List.filter_cons, isProductEntry] using ih
      | lbl l =>
          by_cases hc : l.color = some "006B75"
          · simpa [List.filterMap_cons, List.filter_cons, isProductEntry, hc] using ih
          · simpa [List.filterMap_cons, List.filter_cons, isProductEntry, hc] using ih

theorem mem_getProductLabels {issue : Issue} {l : Label}
    (h : l ∈ getProductLabels issue) : l.color = some "006B75" := by
  have hmap : IssueLabel.lbl l ∈ (getProductLabels issue).map IssueLabel.lbl :=
    List.mem_map_of_mem _ h
  rw [getProductLabels_map_lbl] at hmap
  have hp := List.of_mem_filter hmap
  simpa [isProductEntry] using hp

/-- C8: getProductLabels returns exactly the ordered sublist of the label-object
entries colored with the sentinel "006B75": every returned label carries the
sentinel color; the returned sequence, re-wrapped, is an order-preserving
sublist of the original labels; every sentinel-colored label object appears with
its original multiplicity; the result is empty when no entry qualifies; and the
match is case-sensitive and exact, so no differently-colored label is included. -/
theorem spec_c8_getProductLabels_sentinel_sublist (issue : Issue) :
    (∀ l ∈ getProductLabels issue, l.color = some "006B75")
    ∧ ((getProductLabels issue).map IssueLabel.lbl).Sublist issue.labels
    ∧ (∀ l : Label, l.color = some "006B75" →
        (getProductLabels issue).count l = issue.labels.count (IssueLabel.lbl l))
    ∧ ((∀ il ∈ issue.labels, isProductEntry il = false) → getProductLabels issue = [])
    ∧ (∀ l : Label, l.color ≠ some "006B75" → l ∉ getProductLabels issue) := by
  refine ⟨fun l hl => mem_getProductLabels hl, ?_, ?_, ?_, ?_⟩
  · rw [getProductLabels_map_lbl]
    exact List.filter_sublist issue.labels
  · intro l hc
    have hmap : (getProductLabels issue).count l =
        ((getProductLabels issue).map IssueLabel.lbl).count (IssueLabel.lbl l) :=
      (List.count_map_of_injective _ IssueLabel.lbl
        (fun a b hab => by cases hab; rfl) l).symm
    rw [hmap, getProductLabels_map_lbl, List.count_filter]
    simp [isProductEntry, hc]
  · intro hall
    have hmap : (getProductLabels issue).map IssueLabel.lbl = [] := by
      rw [getProductLabels_map_lbl]
      exact List.filter_eq_nil_iff.mpr (fun il hil => by simp [hall il hil])
    exact List.map_eq_nil_iff.mp hmap
  · intro l hc hmem
    exact hc (mem_getProductLabels hmem)

/-- C8 witness: a concrete issue with a string entry, a sentinel label, a
lowercase-colored label and a second sentinel label. -/
def c8Issue : Issue :=
  ⟨7, "https://example.test/issues/7",
   [IssueLabel.str "plain",
    IssueLabel.lbl ⟨some "maps", some "006B75"⟩,
    IssueLabel.lbl ⟨some "low", some "006b75"⟩,
    IssueLabel.lbl ⟨some "scenes", some "006B75"⟩],
   some [], false⟩

theorem spec_c8_witness :
    getProductLabels c8Issue =
      [⟨some "maps", some "006B75"⟩, ⟨some "scenes", some "006B75"⟩]
    ∧ (getProductLabels c8Issue).count ⟨some "maps", some "006B75"⟩ =
        c8Issue.labels.count (IssueLabel.lbl ⟨some "maps", some "006B75"⟩)
    ∧ (⟨some "low", some "006b75"⟩ : Label) ∉ getProductLabels c8Issue := by
  refine ⟨by decide, ?_, ?_⟩
  · exact (spec_c8_getProductLabels_sentinel_sublist c8Issue).2.2.1
      ⟨some "maps", some "006B75"⟩ (by decide)
  · exact (spec_c8_getProductLabels_sentinel_sublist c8Issue).2.2.2.2
      ⟨some "low", some "006b75"⟩ (by decide)

/-! ### Shared concrete samples for witnesses -/

/-- A capability that always succeeds. -/
def capOk : DispatchCap := fun _ => Except.ok ()

/-- A capability that always fails with a fixed description. -/
def capFail : DispatchCap := fun _ => Except.error "boom"

/-- A valid issue: one sentinel-colored label with a usable name, one assignee. -/
def sampleIssue : Issue :=
  ⟨42, "https://example.test/issues/42",
   [IssueLabel.lbl ⟨some "maps", some "006B75"⟩], some ["alice"], false⟩

/-- An issue whose sole qualifying label has no name. -/
def noNameIssue : Issue :=
  ⟨5, "https://example.test/issues/5",
   [IssueLabel.lbl ⟨none, some "006B75"⟩], some [], false⟩

/-- An issue with an empty assignee array and no labels. -/
def noAssigneeIssue : Issue :=
  ⟨3, "https://example.test/issues/3", [], some [], false⟩

/-- C5: the payload sent by dispatchMondayWorkflow is the shallow merge of the
defaults (the issue number as a string and the fixed event type) with the
caller-supplied inputs, caller keys winning on conflict, and the endpoint is
invoked exactly once per call. -/
theorem spec_c5_dispatch_payload_merge (cap : DispatchCap) (owner repo : String)
    (issue : Issue) (inputs : JsObject) (hnd : (inputs.map Prod.fst).Nodup) :
    (dispatchMondayWorkflow cap owner repo issue inputs).calls =
        [mondayCall owner repo issue inputs]
    ∧ (∀ k, lookupKey (mondayCall owner repo issue inputs).inputs k =
        match lookupKey inputs k with
        | some v => some v
        | none => lookupKey (defaultInputs issue) k)
    ∧ lookupKey (defaultInputs issue) "issue_number" =
        some (some (toString issue.number))
    ∧ lookupKey (defaultInputs issue) "event_type" =
        some (some "SyncActionChanges") := by
  refine ⟨?_, ?_, by simp [defaultInputs, lookupKey], by simp [defaultInputs, lookupKey]⟩
  · cases h : cap (mondayCall owner repo issue inputs) with
    | ok u => simp [dispatchMondayWorkflow, h]
    | error e => simp [dispatchMondayWorkflow, h]
  · intro k
    exact lookupKey_spreadMerge inputs (defaultInputs issue) k hnd

/-- C5 witness: with a concrete issue and concrete caller inputs, the endpoint
is called exactly once and the merged payload carries the default event type
alongside the caller-supplied label name. -/
theorem spec_c5_witness :
    (dispatchMondayWorkflow capOk "o" "r" sampleIssue
        [("label_name", some "maps")]).calls =
      [mondayCall "o" "r" sampleIssue [("label_name", some "maps")]]
    ∧ lookupKey (mondayCall "o" "r" sampleIssue
        [("label_name", some "maps")]).inputs "event_type" =
        some (some "SyncActionChanges")
    ∧ lookupKey (mondayCall "o" "r" sampleIssue
        [("label_name", some "maps")]).inputs "label_name" = some (some "maps") := by
  have h := spec_c5_dispatch_payload_merge capOk "o" "r" sampleIssue
    [("label_name", some "maps")] (by decide)
  refine ⟨h.1, ?_, ?_⟩
  · rw [h.2.1 "event_type"]; decide
  · rw [h.2.1 "label_name"]; decide

/-- C2: dispatchMondayWorkflow never propagates a failure across its boundary:
its response is always triggered or failed; when the capability succeeds it is
triggered with the issue URL logged, on any capability failure it is failed with
the URL and the failure description logged; and with an always-failing
capability, product-label sync on a valid issue returns failed. -/
theorem spec_c2_dispatch_never_throws (cap : DispatchCap) (owner repo : String)
    (issue : Issue) (inputs : JsObject) :
    ((dispatchMondayWorkflow cap owner repo issue inputs).response =
        ActionResponse.triggered
      ∨ (dispatchMondayWorkflow cap owner repo issue inputs).response =
        ActionResponse.failed)
    ∧ (cap (mondayCall owner repo issue inputs) = Except.ok () →
        dispatchMondayWorkflow cap owner repo issue inputs =
          ⟨.triggered, [mondayCall owner repo issue inputs],
           ["DISPATCHED: " ++ issue.html_url]⟩)
    ∧ (∀ e, cap (mondayCall owner repo issue inputs) = Except.error e →
        dispatchMondayWorkflow cap owner repo issue inputs =
          ⟨.failed, [mondayCall owner repo issue inputs],
           ["FAILED: " ++ issue.html_url ++ ". Error: " ++ e]⟩)
    ∧ (∀ failCap : DispatchCap, (∀ call, ∃ e, failCap call = Except.error e) →
        ∀ l rest n, getProductLabels issue = l :: rest → l.name = some n → n ≠ "" →
          (syncEsriProductLabels failCap owner repo issue).response =
            ActionResponse.failed) := by
  refine ⟨?_, ?_, ?_, ?_⟩
  · cases h : cap (mondayCall owner repo issue inputs) with
    | ok u => left; simp [dispatchMondayWorkflow, h]
    | error e => right; simp [dispatchMondayWorkflow, h]
  · intro h; simp [dispatchMondayWorkflow, h]
  · intro e h; simp [dispatchMondayWorkflow, h]
  · intro failCap hfail l rest n hpl hname hne
    have hstep : syncEsriProductLabels failCap owner repo issue =
        dispatchMondayWorkflow failCap owner repo issue
          [("label_name", some n), ("label_color", l.color),
           ("label_action", some "added")] := by
      simp [syncEsriProductLabels, hpl, hname, hne]
    rw [hstep]
    obtain ⟨e, he⟩ := hfail (mondayCall owner repo issue
      [("label_name", some n), ("label_color", l.color), ("label_action", some "added")])
    simp [dispatchMondayWorkflow, he]

/-- C2 witness: with the always-failing capability, product-label sync on the
concrete valid issue returns failed, and a direct dispatch on it returns failed. -/
theorem spec_c2_witness :
    (syncEsriProductLabels capFail "o" "r" sampleIssue).response =
      ActionResponse.failed
    ∧ ((dispatchMondayWorkflow capFail "o" "r" sampleIssue []).response =
        ActionResponse.triggered
      ∨ (dispatchMondayWorkflow capFail "o" "r" sampleIssue []).response =
        ActionResponse.failed) := by
  constructor
  · exact (spec_c2_dispatch_never_throws capFail "o" "r" sampleIssue []).2.2.2
      capFail (fun call => ⟨"boom", rfl⟩)
      ⟨some "maps", some "006B75"⟩ [] "maps" (by decide) rfl (by decide)
  · exact (spec_c2_dispatch_never_throws capFail "o" "r" sampleIssue []).1

/-- C3: product-label sync skips without dispatching when no label qualifies;
when the first qualifying label (in original label order) has a missing or empty
name, it fails with a warning referencing the issue and makes no dispatch call;
otherwise it dispatches with the name, color and action "added" of that first
label; and the selected label is exactly the first sentinel-colored label object
in the original label order of the issue. -/
theorem spec_c3_product_label_sync_policy (cap : DispatchCap) (owner repo : String)
    (issue : Issue) :
    (getProductLabels issue = [] →
        syncEsriProductLabels cap owner repo issue = ⟨.skipped, [], []⟩)
    ∧ (∀ l rest, getProductLabels issue = l :: rest →
        (l.name = none ∨ l.name = some "") →
        syncEsriProductLabels cap owner repo issue =
          ⟨.failed, [],
           ["FAILED: " ++ issue.html_url ++ ". No valid label found."]⟩)
    ∧ (∀ l rest n, getProductLabels issue = l :: rest → l.name = some n → n ≠ "" →
        syncEsriProductLabels cap owner repo issue =
          dispatchMondayWorkflow cap owner repo issue
            [("label_name", some n), ("label_color", l.color),
             ("label_action", some "added")])
    ∧ (∀ pre l post, issue.labels = pre ++ IssueLabel.lbl l :: post →
        l.color = some "006B75" → (∀ il ∈ pre, isProductEntry il = false) →
        (getProductLabels issue).head? = some l) := by
  refine ⟨?_, ?_, ?_, ?_⟩
  · intro h; simp [syncEsriProductLabels, h]
  · intro l rest hpl hname
    rcases hname with h | h
    · simp [syncEsriProductLabels, hpl, h]
    · simp [syncEsriProductLabels, hpl, h]
  · intro l rest n hpl hname hne
    simp [syncEsriProductLabels, hpl, hname, hne]
  · intro pre l post hlab hc hpre
    have hmap := getProductLabels_map_lbl issue
    rw [hlab, List.filter_append] at hmap
    have hpre0 : pre.filter isProductEntry = [] :=
      List.filter_eq_nil_iff.mpr (fun il hil => by simp [hpre il hil])
    have hcons : (IssueLabel.lbl l :: post).filter isProductEntry =
        IssueLabel.lbl l :: post.filter isProductEntry := by
      simp [List.filter_cons, isProductEntry, hc]
    rw [hpre0, hcons, List.nil_append] at hmap
    cases hg : getProductLabels issue with
    | nil => rw [hg] at hmap; simp at hmap
    | cons x xs =>
        rw [hg] at hmap
        simp only [List.map_cons, List.cons.injEq] at hmap
        have hx : x = l := by injection hmap.1
        simp [hx]

/-- C3 witness: on the concrete issue whose sole qualifying label lacks a name,
product-label sync fails with the warning and makes no dispatch call; and the
first qualifying label of the valid sample issue is its sentinel-colored label. -/
theorem spec_c3_witness :
    syncEsriProductLabels capOk "o" "r" noNameIssue =
      ⟨ActionResponse.failed, [],
       ["FAILED: " ++ noNameIssue.html_url ++ ". No valid label found."]⟩
    ∧ (getProductLabels sampleIssue).head? = some ⟨some "maps", some "006B75"⟩ := by
  constructor
  · exact (spec_c3_product_label_sync_policy capOk "o" "r" noNameIssue).2.1
      ⟨none, some "006B75"⟩ [] (by decide) (Or.inl rfl)
  · exact (spec_c3_product_label_sync_policy capOk "o" "r" sampleIssue).2.2.2
      [] ⟨some "maps", some "006B75"⟩ [] rfl (by decide) (by intro il h; simp at h)

/-- C9: assignee sync skips exactly when the assignee array is present and
empty; on a non-empty array it dispatches exactly once with the
assignee_updated flag and returns triggered exactly when the capability
succeeds on that call. -/
theorem spec_c9_assignee_sync (cap : DispatchCap) (owner repo : String) (issue : Issue) :
    (issue.assignees = some [] →
        syncAssignees cap owner repo issue = ⟨.skipped, [], []⟩)
    ∧ (∀ a as, issue.assignees = some (a :: as) →
        (syncAssignees cap owner repo issue).calls =
            [mondayCall owner repo issue [("assignee_updated", some "true")]]
        ∧ ((syncAssignees cap owner repo issue).response = ActionResponse.triggered ↔
            cap (mondayCall owner repo issue [("assignee_updated", some "true")]) =
              Except.ok ())) := by
  constructor
  · intro h; simp [syncAssignees, h]
  · intro a as h
    have hstep : syncAssignees cap owner repo issue =
        dispatchMondayWorkflow cap owner repo issue
          [("assignee_updated", some "true")] := by
      simp [syncAssignees, h]
    rw [hstep]
    cases hc : cap (mondayCall owner repo issue [("assignee_updated", some "true")]) with
    | ok u => cases u; simp [dispatchMondayWorkflow, hc]
    | error e => simp [dispatchMondayWorkflow, hc]

/-- C9 witness: the concrete issue with an empty assignee array is skipped;
the concrete issue with one assignee is triggered under the succeeding
capability. -/
theorem spec_c9_witness :
    syncAssignees capOk "o" "r" noAssigneeIssue = ⟨ActionResponse.skipped, [], []⟩
    ∧ (syncAssignees capOk "o" "r" sampleIssue).response = ActionResponse.triggered := by
  constructor
  · exact (spec_c9_assignee_sync capOk "o" "r" noAssigneeIssue).1 rfl
  · exact ((spec_c9_assignee_sync capOk "o" "r" sampleIssue).2 "alice" [] rfl).2.mpr rfl

/-! ### Helper lemmas on the orchestrator -/

theorem processIssues_events (act : Nat → Issue → ActionResponse) :
    ∀ (l : List Issue) (k : Nat) (c : ActionCounters),
      (processIssues act k l c).snd.snd.length = l.length
    ∧ (∀ e ∈ (processIssues act k l c).snd.snd, e.isActioned = true)
    ∧ (∀ i r, Event.actioned i r ∈ (processIssues act k l c).snd.snd → i ∈ l)
  | [], k, c => by simp [processIssues]
  | i :: rest, k, c => by
      have ih := processIssues_events act rest (k + 1) (c.bump (act k i))
      simp only [processIssues]
      refine ⟨by simp [ih.1], ?_, ?_⟩
      · intro e he
        rcases List.mem_cons.mp he with h | h
        · rw [h]; rfl
        · exact ih.2.1 e h
      · intro i' r h
        rcases List.mem_cons.mp h with h | h
        · injection h with h1 h2
          rw [h1]; exact List.mem_cons_self i rest
        · exact List.mem_cons_of_mem i (ih.2.2 i' r h)

theorem processIssues_counts (act : Nat → Issue → ActionResponse)
    (hTot : ∀ n i, act n i ≠ ActionResponse.total) :
    ∀ (l : List Issue) (k : Nat) (c : ActionCounters),
      (processIssues act k l c).snd.fst.total = c.total
    ∧ (processIssues act k l c).snd.fst.triggered
        + (processIssues act k l c).snd.fst.skipped
        + (processIssues act k l c).snd.fst.failed
      = c.triggered + c.skipped + c.failed + l.length
  | [], k, c => by simp [processIssues]
  | i :: rest, k, c => by
      have ih := processIssues_counts act hTot rest (k + 1) (c.bump (act k i))
      have hbt : (c.bump (act k i)).total = c.total := by
        cases h : act k i with
        | total => exact absurd h (hTot k i)
        | triggered => simp [ActionCounters.bump]
        | skipped => simp [ActionCounters.bump]
        | failed => simp [ActionCounters.bump]
      have hbs : (c.bump (act k i)).triggered + (c.bump (act k i)).skipped
          + (c.bump (act k i)).failed = c.triggered + c.skipped + c.failed + 1 := by
        cases h : act k i with
        | total => exact absurd h (hTot k i)
        | triggered => simp [ActionCounters.bump]; omega
        | skipped => simp [ActionCounters.bump]; omega
        | failed => simp [ActionCounters.bump]; omega
      simp only [processIssues]
      constructor
      · rw [ih.1, hbt]
      · rw [ih.2, hbs, List.length_cons]; omega

theorem iterGo_inv (act : Nat → Issue → ActionResponse)
    (hTot : ∀ n i, act n i ≠ ActionResponse.total) (sleepMs : Nat) (ofp : Bool)
    (pages : List (Except String (List Issue))) :
    ∀ (k : Nat) (c : ActionCounters), countersInv c →
      ∀ cf evs, iterGo act sleepMs ofp pages k c = Except.ok (cf, evs) →
      countersInv cf := by
  induction pages with
  | nil =>
      intro k c hc cf evs h
      simp only [iterGo, Except.ok.injEq, Prod.mk.injEq] at h
      rw [← h.1]; exact hc
  | cons p rest ih =>
      intro k c hc cf evs h
      cases p with
      | error e => simp [iterGo] at h
      | ok data =>
          simp only [iterGo] at h
          have hinv1 : countersInv
              (processIssues act k (removePullRequests data)
                { c with total := c.total + (removePullRequests data).length }).snd.fst := by
            have hpc := processIssues_counts act hTot (removePullRequests data) k
              { c with total := c.total + (removePullRequests data).length }
            unfold countersInv at hc ⊢
            rw [hpc.1, hpc.2]
            simp only
            omega
          split at h
          · simp only [Except.ok.injEq, Prod.mk.injEq] at h
            rw [← h.1]; exact hinv1
          · split at h
            · exact absurd h (by simp)
            · next cf2 evs2 heq =>
                simp only [Except.ok.injEq, Prod.mk.injEq] at h
                rw [← h.1]
                exact ih _ _ hinv1 cf2 evs2 heq

/-- C1: for every run of iterateAllIssues, any page sequence and any per-issue
action producing the three outcomes, the final summary counters satisfy
total = triggered + skipped + failed; the counters after page j of a run equal
the final counters of the run on the j-page prefix, so quantifying over all page
sequences covers every page boundary; and the zero-page run yields the all-zero
summary. -/
theorem spec_c1_counter_invariant (pages : List (Except String (List Issue)))
    (act : Nat → Issue → ActionResponse) (sleepMs : Nat) (ofp : Bool)
    (hTot : ∀ n i, act n i ≠ ActionResponse.total) :
    (∀ cf evs, iterateAllIssues pages act sleepMs ofp = Except.ok (cf, evs) →
        cf.total = cf.triggered + cf.skipped + cf.failed)
    ∧ iterateAllIssues [] act sleepMs ofp = Except.ok (⟨0, 0, 0, 0⟩, []) := by
  constructor
  · intro cf evs h
    exact iterGo_inv act hTot sleepMs ofp pages 0 ⟨0, 0, 0, 0⟩ rfl cf evs h
  · rfl

/-- C1 witness: a one-page run with a triggering action reaches the summary
counters 1/1/0/0, which satisfy the invariant. -/
theorem spec_c1_witness :
    (⟨1, 1, 0, 0⟩ : ActionCounters).total =
      (⟨1, 1, 0, 0⟩ : ActionCounters).triggered
        + (⟨1, 1, 0, 0⟩ : ActionCounters).skipped
        + (⟨1, 1, 0, 0⟩ : ActionCounters).failed := by
  exact (spec_c1_counter_invariant [Except.ok [sampleIssue]]
      (fun _ _ => ActionResponse.triggered) 0 false
      (fun n i h => ActionResponse.noConfusion h)).1
    ⟨1, 1, 0, 0⟩
    [Event.pageRequested, Event.actioned sampleIssue ActionResponse.triggered,
     Event.slept 0]
    rfl

theorem processIssues_countP_actioned (act : Nat → Issue → ActionResponse)
    (l : List Issue) (k : Nat) (c : ActionCounters) :
    (processIssues act k l c).snd.snd.countP Event.isActioned = l.length := by
  have h := processIssues_events act l k c
  rw [List.countP_eq_length.mpr h.2.1, h.1]

theorem processIssues_countP_slept (act : Nat → Issue → ActionResponse)
    (l : List Issue) (k : Nat) (c : ActionCounters) :
    (processIssues act k l c).snd.snd.countP Event.isSlept = 0 := by
  rw [List.countP_eq_zero]
  intro e he
  have ha := (processIssues_events act l k c).2.1 e he
  cases e <;> simp_all [Event.isActioned, Event.isSlept]

theorem processIssues_count_pageRequested (act : Nat → Issue → ActionResponse)
    (l : List Issue) (k : Nat) (c : ActionCounters) :
    (processIssues act k l c).snd.snd.count Event.pageRequested = 0 := by
  rw [List.count_eq_zero]
  intro hmem
  have ha := (processIssues_events act l k c).2.1 _ hmem
  simp [Event.isActioned] at ha

theorem iterGo_actioned_not_pr (act : Nat → Issue → ActionResponse) (sleepMs : Nat)
    (ofp : Bool) (pages : List (Except String (List Issue))) :
    ∀ (k : Nat) (c cf : ActionCounters) (evs : List Event),
      iterGo act sleepMs ofp pages k c = Except.ok (cf, evs) →
      ∀ i r, Event.actioned i r ∈ evs → i.pull_request = false := by
  induction pages with
  | nil =>
      intro k c cf evs h i r hmem
      simp only [iterGo, Except.ok.injEq, Prod.mk.injEq] at h
      rw [← h.2] at hmem
      simp at hmem
  | cons p rest ih =>
      intro k c cf evs h i r hmem
      cases p with
      | error e => simp [iterGo] at h
      | ok data =>
          have hplmem : ∀ i' r',
              Event.actioned i' r' ∈ (processIssues act k (removePullRequests data)
                { c with total := c.total + (removePullRequests data).length }).snd.snd →
              i'.pull_request = false := by
            intro i' r' hm
            have hin := (processIssues_events act (removePullRequests data) k
              { c with total := c.total + (removePullRequests data).length }).2.2 i' r' hm
            have := List.of_mem_filter hin
            simpa using this
          simp only [iterGo] at h
          split at h
          · simp only [Except.ok.injEq, Prod.mk.injEq] at h
            rw [← h.2] at hmem
            rcases List.mem_cons.mp hmem with hh | hh
            · exact absurd hh (by simp)
            · exact hplmem i r hh
          · split at h
            · exact absurd h (by simp)
            · next cf2 evs2 heq =>
                simp only [Except.ok.injEq, Prod.mk.injEq] at h
                rw [← h.2] at hmem
                rcases List.mem_cons.mp hmem with hh | hh
                · exact absurd hh (by simp)
                · rcases List.mem_append.mp hh with hh2 | hh2
                  · exact hplmem i r hh2
                  · rcases List.mem_cons.mp hh2 with hh3 | hh3
                    · exact absurd hh3 (by simp)
                    · exact ih _ _ cf2 evs2 heq i r hh3

/-- C4: removePullRequests returns exactly the order-preserving sublist of
records whose pull-request marker is unset, with original multiplicities and no
duplication; in any run of iterateAllIssues, no pull-request record is ever
passed to the per-issue action; and on a single page the action is invoked once
per non-pull-request record, which is also what the page contributes to the total. -/
theorem spec_c4_pull_request_exclusion (l : List Issue)
    (pages : List (Except String (List Issue))) (data : List Issue)
    (act : Nat → Issue → ActionResponse) (sleepMs : Nat) (ofp : Bool) :
    ((removePullRequests l).Sublist l
      ∧ (∀ x ∈ removePullRequests l, x.pull_request = false)
      ∧ (∀ x : Issue, (removePullRequests l).count x =
          if x.pull_request then 0 else l.count x))
    ∧ (∀ cf evs, iterateAllIssues pages act sleepMs ofp = Except.ok (cf, evs) →
        ∀ i r, Event.actioned i r ∈ evs → i.pull_request = false)
    ∧ (∀ cf evs,
        iterateAllIssues [Except.ok data] act sleepMs false = Except.ok (cf, evs) →
        evs.countP Event.isActioned = (data.filter fun i => !i.pull_request).length
        ∧ ((∀ n i, act n i ≠ ActionResponse.total) →
            cf.total = (data.filter fun i => !i.pull_request).length)) := by
  refine ⟨⟨List.filter_sublist l, ?_, ?_⟩, ?_, ?_⟩
  · intro x hx
    have := List.of_mem_filter hx
    simpa using this
  · intro x
    by_cases hx : x.pull_request
    · rw [if_pos hx]
      rw [List.count_eq_zero]
      intro hmem
      have := List.of_mem_filter hmem
      simp [hx] at this
    · rw [if_neg hx]
      exact List.count_filter (by simp [hx])
  · intro cf evs h
    exact iterGo_actioned_not_pr act sleepMs ofp pages 0 ⟨0, 0, 0, 0⟩ cf evs h
  · intro cf evs h
    simp only [iterateAllIssues, iterGo, Bool.false_eq_true, if_false,
      Except.ok.injEq, Prod.mk.injEq] at h
    constructor
    · rw [← h.2]
      simp [List.countP_cons, List.countP_append, Event.isActioned,
        processIssues_countP_actioned, removePullRequests]
    · intro hTot
      have hpc := processIssues_counts act hTot (removePullRequests data) 0
        { (⟨0, 0, 0, 0⟩ : ActionCounters) with
            total := (⟨0, 0, 0, 0⟩ : ActionCounters).total + (removePullRequests data).length }
      rw [← h.1, hpc.1]
      simp [removePullRequests]

/-- C4 witness: on a concrete page holding one issue and one pull request, the
action is invoked exactly once and the total is 1. -/
theorem spec_c4_witness :
    ([Event.pageRequested, Event.actioned sampleIssue ActionResponse.skipped,
        Event.slept 0] : List Event).countP Event.isActioned =
      (([sampleIssue, ⟨9, "https://example.test/pull/9", [], some [], true⟩] :
          List Issue).filter fun i => !i.pull_request).length
    ∧ (⟨1, 0, 1, 0⟩ : ActionCounters).total =
      (([sampleIssue, ⟨9, "https://example.test/pull/9", [], some [], true⟩] :
          List Issue).filter fun i => !i.pull_request).length := by
  have h := (spec_c4_pull_request_exclusion [] []
      [sampleIssue, ⟨9, "https://example.test/pull/9", [], some [], true⟩]
      (fun _ _ => ActionResponse.skipped) 0 false).2.2
    ⟨1, 0, 1, 0⟩
    [Event.pageRequested, Event.actioned sampleIssue ActionResponse.skipped,
     Event.slept 0] rfl
  exact ⟨h.1, h.2 (fun n i hh => ActionResponse.noConfusion hh)⟩

theorem getLast_cons_concat (a b : Event) (l : List Event) :
    (a :: l ++ [b]).getLast? = some b := by
  show ((a :: l) ++ [b]).getLast? = some b
  exact List.getLast?_concat _

/-- C6: after a page is processed with onlyFirstPage set, the run stops at once:
the result does not depend on the remaining pages (so the second page is never
requested), no inter-page sleep is awaited and exactly one page was requested;
with onlyFirstPage unset, the inter-page sleep with the configured delay is
awaited unconditionally after the page, even when no further page exists. -/
theorem spec_c6_first_page_stop_and_unconditional_delay (data : List Issue)
    (rest : List (Except String (List Issue))) (act : Nat → Issue → ActionResponse)
    (sleepMs : Nat) :
    iterateAllIssues (Except.ok data :: rest) act sleepMs true =
        iterateAllIssues [Except.ok data] act sleepMs true
    ∧ (∀ cf evs, iterateAllIssues (Except.ok data :: rest) act sleepMs true =
          Except.ok (cf, evs) →
        evs.countP Event.isSlept = 0 ∧ evs.count Event.pageRequested = 1)
    ∧ (∀ cf evs, iterateAllIssues [Except.ok data] act sleepMs false =
          Except.ok (cf, evs) →
        evs.getLast? = some (Event.slept sleepMs)) := by
  refine ⟨rfl, ?_, ?_⟩
  · intro cf evs h
    simp only [iterateAllIssues, iterGo, if_true, Except.ok.injEq, Prod.mk.injEq] at h
    rw [← h.2]
    constructor
    · simp [List.countP_cons, Event.isSlept, processIssues_countP_slept]
    · simp [List.count_cons, processIssues_count_pageRequested]
  · intro cf evs h
    simp only [iterateAllIssues, iterGo, Bool.false_eq_true, if_false,
      Except.ok.injEq, Prod.mk.injEq] at h
    rw [← h.2]
    exact getLast_cons_concat _ _ _

/-- C6 witness: a concrete two-page source with onlyFirstPage set yields a trace
with no sleep and one page request; the concrete one-page run without it ends in
the sleep with the configured delay. -/
theorem spec_c6_witness :
    (([Event.pageRequested,
        Event.actioned sampleIssue ActionResponse.triggered] : List Event).countP
          Event.isSlept = 0
      ∧ ([Event.pageRequested,
          Event.actioned sampleIssue ActionResponse.triggered] : List Event).count
            Event.pageRequested = 1)
    ∧ ([Event.pageRequested, Event.actioned sampleIssue ActionResponse.triggered,
        Event.slept 7] : List Event).getLast? = some (Event.slept 7) := by
  constructor
  · exact (spec_c6_first_page_stop_and_unconditional_delay [sampleIssue]
      [Except.ok []] (fun _ _ => ActionResponse.triggered) 7).2.1
      ⟨1, 1, 0, 0⟩
      [Event.pageRequested, Event.actioned sampleIssue ActionResponse.triggered] rfl
  · exact (spec_c6_first_page_stop_and_unconditional_delay [sampleIssue]
      [Except.ok []] (fun _ _ => ActionResponse.triggered) 7).2.2
      ⟨1, 1, 0, 0⟩
      [Event.pageRequested, Event.actioned sampleIssue ActionResponse.triggered,
       Event.slept 7] rfl

/-- Whether a run result is a summary rather than a propagated error. -/
def exceptIsOk : Except String (ActionCounters × List Event) → Bool
  | .ok _ => true
  | .error _ => false

theorem iterGo_allok_ne_error (act : Nat → Issue → ActionResponse) (sleepMs : Nat) :
    ∀ (good : List (List Issue)) (k : Nat) (c : ActionCounters) (ofp : Bool) (e : String),
      iterGo act sleepMs ofp (good.map Except.ok) k c ≠ Except.error e := by
  intro good
  induction good with
  | nil => intro k c ofp e h; simp [iterGo] at h
  | cons d rest ih =>
      intro k c ofp e h
      simp only [List.map_cons, iterGo] at h
      cases ofp with
      | true => simp at h
      | false =>
          simp only [Bool.false_eq_true, if_false] at h
          split at h
          · next e2 heq => exact absurd heq (ih _ _ _ _)
          · simp at h

theorem iterGo_error_propagates (act : Nat → Issue → ActionResponse) (sleepMs : Nat) :
    ∀ (pre : List (List Issue)) (e : String)
      (rest : List (Except String (List Issue))) (k : Nat) (c : ActionCounters),
      iterGo act sleepMs false (pre.map Except.ok ++ Except.error e :: rest) k c =
        Except.error e := by
  intro pre
  induction pre with
  | nil => intro e rest k c; rfl
  | cons d pre2 ih =>
      intro e rest k c
      simp only [List.map_cons, List.cons_append, iterGo, Bool.false_eq_true, if_false,
        List.append_eq]
      rw [ih]

/-- C7: a failure of the page-listing source is not recovered: whatever ok pages
precede it, the run result is that error and no summary is produced; by
contrast, a run whose source yields only ok pages always reaches the summary,
whatever outcomes (including failed) the per-issue action returns. -/
theorem spec_c7_listing_error_propagates (act : Nat → Issue → ActionResponse)
    (sleepMs : Nat) :
    (∀ (pre : List (List Issue)) (e : String)
        (rest : List (Except String (List Issue))),
        iterateAllIssues (pre.map Except.ok ++ Except.error e :: rest) act sleepMs false =
          Except.error e)
    ∧ (∀ (good : List (List Issue)) (ofp : Bool),
        exceptIsOk (iterateAllIssues (good.map Except.ok) act sleepMs ofp) = true) := by
  constructor
  · intro pre e rest
    exact iterGo_error_propagates act sleepMs pre e rest 0 ⟨0, 0, 0, 0⟩
  · intro good ofp
    cases h : iterateAllIssues (good.map Except.ok) act sleepMs ofp with
    | error e => exact absurd h (iterGo_allok_ne_error act sleepMs good 0 ⟨0, 0, 0, 0⟩ ofp e)
    | ok pr => rfl

/-- C10: the action type admits the response total; an action returning it makes
the orchestrator bump counters.total a second time for that issue with no
outcome recorded, so the final summary of this concrete run is 2/0/0/0 and the
counter invariant fails at the summary. -/
theorem spec_c10_total_response_breaks_invariant :
    iterateAllIssues [Except.ok [sampleIssue]]
        (fun _ _ => ActionResponse.total) 0 false =
      Except.ok (⟨2, 0, 0, 0⟩,
        [Event.pageRequested, Event.actioned sampleIssue ActionResponse.total,
         Event.slept 0])
    ∧ ¬ countersInv ⟨2, 0, 0, 0⟩ :=
  ⟨rfl, by decide⟩
